import Mathlib

/-!
Shallow embedding of the handle-table resource bridge implemented in
`src/onebit-yoga/src/ffi/yoga_wrap.c`.

Foreign pointers are modelled as natural numbers (`0` is not special; a C
null pointer is modelled as `Option.none`).  The C `HandleTable` struct is
modelled field by field; `free_count` is the length of the `free_list`
list, whose head is the top of the C stack (`free_list[free_count - 1]`).
`realloc` is modelled as always succeeding, which is the usual abstraction
for allocation in this kind of embedding; the C rollback paths for a
failing `realloc` are therefore not reachable in the model.
-/

/-- Model of the C `HandleTable` struct from yoga_wrap.c.  `items` has
length `capacity`; an entry `none` is a NULL slot.  `high_water_mark` is a
signed integer because the C code stores `-1` in it. -/
structure HandleTable where
  items : List (Option Nat)
  free_list : List Nat
  capacity : Nat
  count : Nat
  high_water_mark : Int
deriving Repr, DecidableEq

/-- Model of the C static initializer `{NULL, NULL, 0, 0, 0, 0}`: note the
initializer sets `high_water_mark` to `0`, not `-1`. -/
def initTable : HandleTable :=
  { items := [], free_list := [], capacity := 0, count := 0, high_water_mark := 0 }

/-- Growth step of `handle_table_add`: when `count` has reached
`capacity`, double the storage (minimum initial capacity 16) and zero-fill
the new slots; otherwise leave the table unchanged. -/
def grow_if_needed (t : HandleTable) : HandleTable :=
  if t.count ≥ t.capacity then
    let new_capacity := if t.capacity = 0 then 16 else t.capacity * 2
    { t with
      items := t.items ++ List.replicate (new_capacity - t.capacity) none,
      capacity := new_capacity }
  else t

/-- Bump path of `handle_table_add` (empty free list): grow if needed,
assign the next id `count`, store the pointer, and raise the high-water
mark when the new id exceeds it. -/
def bump_add (t : HandleTable) (p : Nat) : Int × HandleTable :=
  let t1 := grow_if_needed t
  let t2 := { t1 with items := t1.items.set t1.count (some p), count := t1.count + 1 }
  ((t1.count : Int),
    if (t1.count : Int) > t2.high_water_mark then
      { t2 with high_water_mark := (t1.count : Int) }
    else t2)

/-- Model of `handle_table_add`.  Returns the handle (C `int`, so `Int`
with `-1` as the invalid sentinel) and the updated table.  Mirrors the C
control flow: null pointer check, free-list pop, and the bump path with
growth and high-water-mark update. -/
def handle_table_add (t : HandleTable) (ptr : Option Nat) : Int × HandleTable :=
  match ptr with
  | none => (-1, t)
  | some p =>
    match t.free_list with
    | handle :: rest =>
      ((handle : Int),
        { t with items := t.items.set handle (some p), free_list := rest })
    | [] => bump_add t p

/-- Model of `handle_table_get`: NULL for a negative or out-of-`count`
handle, otherwise the slot content (which may itself be NULL).  The C
`!table->items` guard is subsumed: when `items` is the empty list every
lookup already yields `none`. -/
def handle_table_get (t : HandleTable) (h : Int) : Option Nat :=
  if 0 ≤ h ∧ h < (t.count : Int) then (t.items.get? h.toNat).join else none

/-- Model of the downward rescan loop in `handle_table_remove`: the
greatest index `i ≤ start` with a non-NULL slot, or `-1` if none. -/
def scan_down (items : List (Option Nat)) : Nat → Int
  | 0 => if (items.get? 0).join.isSome then 0 else -1
  | i + 1 =>
    if (items.get? (i + 1)).join.isSome then ((i + 1 : Nat) : Int)
    else scan_down items i

/-- Model of `handle_table_remove`: clears the slot, pushes the id onto the
free list when there is room, and rescans for a new high-water mark when
the removed id equalled it. -/
def handle_table_remove (t : HandleTable) (h : Int) : HandleTable :=
  if t.capacity = 0 then t
  else if 0 ≤ h ∧ h < (t.count : Int) ∧ (t.items.get? h.toNat).join.isSome then
    let i := h.toNat
    let t1 := { t with items := t.items.set i none }
    let t2 :=
      if t1.free_list.length < t1.capacity then
        { t1 with free_list := i :: t1.free_list }
      else t1
    if (i : Int) = t2.high_water_mark then
      { t2 with high_water_mark := if i = 0 then -1 else scan_down t2.items (i - 1) }
    else t2
  else t

/-- Model of the free-list rebuild loop inside `handle_table_compact`:
scan indices `0..hwm` in increasing order and push every NULL slot, so the
head of the resulting list (top of stack) is the highest pushed index. -/
def rebuild_free (items : List (Option Nat)) (capacity hwm : Nat) : List Nat :=
  (List.range (hwm + 1)).foldl
    (fun acc i =>
      if (items.get? i).join.isNone ∧ acc.length < capacity then i :: acc else acc)
    []

/-- Model of `handle_table_compact`: full reset when `high_water_mark < 0`,
otherwise shrink to `max (high_water_mark + 1) 16` — but only when that
target is below a quarter of the current capacity — setting `count` to the
new capacity and rebuilding the free list. -/
def handle_table_compact (t : HandleTable) : HandleTable :=
  if t.high_water_mark < 0 then
    { items := [], free_list := [], capacity := 0, count := 0, high_water_mark := -1 }
  else
    let hwm := t.high_water_mark.toNat
    let target := if hwm + 1 < 16 then 16 else hwm + 1
    if target < t.capacity / 4 then
      let new_items := t.items.take target
      { items := new_items,
        free_list := rebuild_free new_items target hwm,
        capacity := target,
        count := target,
        high_water_mark := t.high_water_mark }
    else t

/-- Table-level model of `YGNodeFree_wrap` (the native `YGNodeFree` call
only touches foreign memory, not the table): if the handle resolves,
remove it and then compact when more than 32 ids are free and the free
ids exceed half the capacity. -/
def YGNodeFree_wrap (t : HandleTable) (h : Int) : HandleTable :=
  match handle_table_get t h with
  | none => t
  | some _ =>
    let t1 := handle_table_remove t h
    if t1.free_list.length > 32 ∧ t1.free_list.length > t1.capacity / 2 then
      handle_table_compact t1
    else t1

mutual
/-- Model of a foreign Yoga node: its address and the child list that the
foreign accessors `YGNodeGetChildCount` / `YGNodeGetChild` report.  The
child list is a mutually inductive forest so that the scrub recursion is
structural (hence computable by the kernel). -/
inductive YGNode where
  | mk (ptr : Nat) (children : YGForest)
/-- A list of foreign Yoga nodes (children of some node, left to right). -/
inductive YGForest where
  | nil
  | cons (head : YGNode) (tail : YGForest)
end

/-- Address of a foreign node. -/
def YGNode.ptr : YGNode → Nat
  | .mk p _ => p

/-- Children of a foreign node, as reported by the foreign accessors. -/
def YGNode.children : YGNode → YGForest
  | .mk _ cs => cs

/-- Child at an index, as the foreign bounds-checked `YGNodeGetChild`
reports it: `none` when the index is out of range. -/
def YGForest.get? : YGForest → Nat → Option YGNode
  | .nil, _ => none
  | .cons h _, 0 => some h
  | .cons _ t, n + 1 => t.get? n

/-- Model of the linear scan in `remove_node_handles_recursive`: walk the
first `c` slots and clear the first one equal to `some p` (the C loop
breaks after the first match). -/
def clear_first (p : Nat) : Nat → List (Option Nat) → List (Option Nat)
  | _, [] => []
  | 0, l => l
  | c + 1, x :: xs => if x = some p then none :: xs else x :: clear_first p c xs

/-- Model of the linear scan in `YGNodeGetChild_wrap`: index of the first
slot among the first `c` slots holding `some p`. -/
def find_ptr (p : Nat) : Nat → List (Option Nat) → Option Nat
  | _, [] => none
  | 0, _ => none
  | c + 1, x :: xs =>
    if x = some p then some 0 else (find_ptr p c xs).map (· + 1)

/-- Number of occurrences of `some p` among the first `c` slots; used to
state the at-most-one-handle-per-pointer hypotheses. -/
def occ (p : Nat) : Nat → List (Option Nat) → Nat
  | _, [] => 0
  | 0, _ => 0
  | c + 1, x :: xs => (if x = some p then 1 else 0) + occ p c xs

/-- One clearing pass of `remove_node_handles_recursive`: the loop over
the first `count` slots that clears the first slot holding `p`, leaving
every other field of the table untouched. -/
def clearStep (p : Nat) (t : HandleTable) : HandleTable :=
  { t with items := clear_first p t.count t.items }

/-- Model of `remove_node_handles_recursive`, generalised to a forest so
the nested recursion is a single structural recursion: for each node,
first scrub all of its children (left to right), then clear the node's own
slot by a linear scan over the first `count` slots. -/
def scrubForest : YGForest → HandleTable → HandleTable
  | .nil, t => t
  | .cons (.mk p cs) rest, t => scrubForest rest (clearStep p (scrubForest cs t))

/-- Pointers of all nodes in a forest (each root and all descendants). -/
def forestPtrs : YGForest → List Nat
  | .nil => []
  | .cons (.mk p cs) rest => p :: (forestPtrs cs ++ forestPtrs rest)

/-- Pointers of a node's whole subtree (the node and all descendants). -/
def subtreePtrs (n : YGNode) : List Nat := forestPtrs (.cons n .nil)

/-- Table-level model of `YGNodeFreeRecursive_wrap`.  `root` is the foreign
node the handle resolves to (theorems carry the coherence hypothesis
`handle_table_get t h = some root.ptr`).  Per the C statement order, the
table returned here is the state at the moment the native
`YGNodeFreeRecursive` is invoked: the scrub happens first, the native free
after. -/
def YGNodeFreeRecursive_wrap (t : HandleTable) (h : Int) (root : YGNode) : HandleTable :=
  match handle_table_get t h with
  | none => t
  | some _ => scrubForest (.cons root .nil) t

/-- Table-level model of `YGNodeGetChild_wrap`.  `parent` is the foreign
node the parent handle resolves to; the foreign `YGNodeGetChild` is its
bounds-checked child list lookup.  Returns `-1` when the parent does not
resolve or the index is out of the foreign range; otherwise returns an
existing handle aliasing the child pointer or adds a fresh one. -/
def YGNodeGetChild_wrap (t : HandleTable) (parent_handle : Int) (parent : YGNode)
    (index : Int) : Int × HandleTable :=
  match handle_table_get t parent_handle with
  | none => (-1, t)
  | some _ =>
    match (if index < 0 then none else YGForest.get? parent.children index.toNat) with
    | none => (-1, t)
    | some child =>
      match find_ptr child.ptr t.count t.items with
      | some i => ((i : Int), t)
      | none => handle_table_add t (some child.ptr)

/-- The two independent singleton tables of yoga_wrap.c: one for nodes,
one for configs. -/
structure Tables where
  node_table : HandleTable
  config_table : HandleTable
deriving Repr, DecidableEq

/-- Model of the initial state of the two static tables. -/
def initTables : Tables := { node_table := initTable, config_table := initTable }

/-- Model of `YGConfigNew_wrap`; `p` is the address the foreign
`YGConfigNew` returns. -/
def YGConfigNew_wrap (s : Tables) (p : Nat) : Int × Tables :=
  let r := handle_table_add s.config_table (some p)
  (r.1, { s with config_table := r.2 })

/-- Model of `YGNodeNew_wrap`; `p` is the address the foreign `YGNodeNew`
returns. -/
def YGNodeNew_wrap (s : Tables) (p : Nat) : Int × Tables :=
  let r := handle_table_add s.node_table (some p)
  (r.1, { s with node_table := r.2 })

/-- Model of `YGConfigSetUseWebDefaults_wrap`.  The foreign config state is
a map from config address to its use-web-defaults flag; the wrapper
resolves the handle in the config table only and, when it resolves, sets
the flag of exactly the resolved address. -/
def YGConfigSetUseWebDefaults_wrap (s : Tables) (fc : Nat → Bool) (h : Int)
    (enabled : Int) : Nat → Bool :=
  match handle_table_get s.config_table h with
  | none => fc
  | some c => fun q => if q = c then decide (enabled ≠ 0) else fc q

/-- Fold a list of foreign addresses through `handle_table_add`; used to
build concrete reachable states. -/
def addN (t : HandleTable) (ps : List Nat) : HandleTable :=
  ps.foldl (fun a p => (handle_table_add a (some p)).2) t

/-- Fold a list of handles through `YGNodeFree_wrap`; used to build
concrete reachable states. -/
def freeN (t : HandleTable) (hs : List Int) : HandleTable :=
  hs.foldl YGNodeFree_wrap t

/-- One table transition: the table effect of any exported operation is a
composition of these four primitive steps (adding — also done lazily by
`YGNodeGetChild_wrap` —, removing, compacting, and the recursive scrub). -/
inductive Step : HandleTable → HandleTable → Prop where
  | add (t : HandleTable) (p : Option Nat) : Step t (handle_table_add t p).2
  | remove (t : HandleTable) (h : Int) : Step t (handle_table_remove t h)
  | compact (t : HandleTable) : Step t (handle_table_compact t)
  | scrub (t : HandleTable) (l : YGForest) : Step t (scrubForest l t)

/-- States reachable from the static initializer by any sequence of table
operations. -/
def Reachable (t : HandleTable) : Prop :=
  Relation.ReflTransGen Step initTable t

/-- Structural invariant of the handle table, maintained by every
operation: `items` has exactly `capacity` slots, `count` never exceeds
`capacity`, the free list holds only in-range empty slots without
duplicates, and every slot at index `≥ count` is empty.  Note the
high-water mark is deliberately not constrained: the code fails to keep it
in sync (see the stale-mark theorems). -/
structure TableInv (t : HandleTable) : Prop where
  len_eq : t.items.length = t.capacity
  count_le : t.count ≤ t.capacity
  free_lt : ∀ i ∈ t.free_list, i < t.count
  free_empty : ∀ i ∈ t.free_list, (t.items.get? i).join = none
  free_nodup : t.free_list.Nodup
  above_empty : ∀ i, t.count ≤ i → (t.items.get? i).join = none

/-- Trace: 34 nodes created, filling handles 0..33 (capacity grows to 64,
high-water mark 33). -/
def hwmTrace1 : HandleTable := addN initTable (List.range' 100 34)

/-- Trace: handle 33 freed (high-water mark rescans down to 32, free list
holds 33). -/
def hwmTrace2 : HandleTable := YGNodeFree_wrap hwmTrace1 33

/-- Trace: a new node (address 200) added; the free list pops handle 33
back into use, but the recycle path of `handle_table_add` does not raise
the high-water mark, which stays at 32 while slot 33 is occupied. -/
def hwmTrace3 : HandleTable := (handle_table_add hwmTrace2 (some 200)).2

/-- Trace: handles 0..31 freed; handle 33 still live, high-water mark
still 32, 32 ids free. -/
def hwmTrace4 : HandleTable := freeN hwmTrace3 ((List.range 32).map (fun i => (i : Int)))

/-- Trace: the state inside `YGNodeFree_wrap 32` right before compaction
runs: handle 32 removed (rescan misses the live slot 33 above the stale
mark, so `high_water_mark = -1`), 33 ids free, capacity 64, and handle 33
still live. -/
def hwmTrace5 : HandleTable := handle_table_remove hwmTrace4 32

/-- Trace: the full `YGNodeFree_wrap 32` call, whose compaction trigger
fires and, with `high_water_mark = -1`, releases all storage even though
handle 33 is live. -/
def hwmTrace6 : HandleTable := YGNodeFree_wrap hwmTrace4 32

/-- Trace: from the 34-node table, handles 33 down to 2 freed (32 frees;
the 32-id free list does not yet reach the compaction trigger). -/
def capTrace1 : HandleTable :=
  freeN hwmTrace1 ((List.range 32).map (fun i => ((33 - i : Nat) : Int)))

/-- Trace: the state inside `YGNodeFree_wrap 1` right before the
compaction check: 33 ids free (more than 32 and more than half of the
64 capacity), high-water mark 0. -/
def capTrace2 : HandleTable := handle_table_remove capTrace1 1

/-- Trace: the full `YGNodeFree_wrap 1` call: the trigger holds, yet
compaction leaves capacity at 64 because the shrink target 16 is not
below a quarter of 64. -/
def capTrace3 : HandleTable := YGNodeFree_wrap capTrace1 1

/-- Trace: one node added to a fresh table (handle 0). -/
def staleTrace1 : HandleTable := (handle_table_add initTable (some 100)).2

/-- Trace: a second node added (handle 1, high-water mark 1). -/
def staleTrace2 : HandleTable := (handle_table_add staleTrace1 (some 101)).2

/-- Trace: handle 1 removed; the high-water mark rescans down to 0 and
the free list holds 1. -/
def staleTrace3 : HandleTable := handle_table_remove staleTrace2 1

/-- Trace: a third node added; the free list pops handle 1 back into use
while the high-water mark stays 0 — the stale state the invariant claim
is about. -/
def staleTrace4 : HandleTable := (handle_table_add staleTrace3 (some 102)).2

/-- Trace for C10's scenario: `Add(A) = 0`. -/
def lifoTrace1 : HandleTable := (handle_table_add initTable (some 100)).2

/-- Trace for C10's scenario: `Add(B) = 1`. -/
def lifoTrace2 : HandleTable := (handle_table_add lifoTrace1 (some 101)).2

/-- Trace for C10's scenario: `Remove(0)`. -/
def lifoTrace3 : HandleTable := handle_table_remove lifoTrace2 0

/-- Trace: a config created (config handle 0, address 500). -/
def nsTrace1 : Tables := (YGConfigNew_wrap initTables 500).2

/-- Trace: a node created (node handle 0, address 600); both namespaces
now have a live handle 0. -/
def nsTrace2 : Tables := (YGNodeNew_wrap nsTrace1 600).2

/-- A three-level foreign tree: root (address 1) → child (address 2) →
grandchild (address 3). -/
def demoTree : YGNode := .mk 1 (.cons (.mk 2 (.cons (.mk 3 .nil) .nil)) .nil)

/-- A table holding handles 0, 1, 2 for the three nodes of `demoTree`. -/
def demoTable : HandleTable := addN initTable [1, 2, 3]

/-- A table holding a single handle 0 for a childless node. -/
def soloTable : HandleTable := (handle_table_add initTable (some 100)).2

/-- The childless foreign node the single handle of `soloTable` names. -/
def soloNode : YGNode := .mk 100 .nil

/-- The table state after recursively freeing `soloNode` through its
handle. -/
def soloFreed : HandleTable := YGNodeFreeRecursive_wrap soloTable 0 soloNode

set_option maxRecDepth 40000

/-- C10: handle reuse is LIFO: on a fresh table, `Add(A)` yields handle 0,
`Add(B)` yields handle 1, and after `Remove(0)` the next `Add(C)` yields
handle 0 again (the most recently removed id is the next one reused). -/
theorem c10_lifo_reuse :
    (handle_table_add initTable (some 100)).1 = 0 ∧
    (handle_table_add lifoTrace1 (some 101)).1 = 1 ∧
    (handle_table_add lifoTrace3 (some 102)).1 = 0 := by
  decide

/-- C3: the claimed invariant — `high_water_mark` equals the maximum
occupied index, or `-1` when no slot is occupied — fails in a reachable
state: after `Add, Add, Remove(1), Add`, the last add recycles slot 1 off
the free list without raising the mark, leaving slot 1 occupied while the
mark is 0.  (The recycle path of `handle_table_add`, lines 29–33 of
yoga_wrap.c, never touches `high_water_mark`, contradicting the struct's
own comment that it tracks the highest used index.) -/
theorem c3_high_water_mark_stale_after_recycled_add :
    (staleTrace4.items.get? 1).join = some 102 ∧
    staleTrace4.high_water_mark = 0 := by
  decide

/-- C1: the claimed trace property — `Get(h)` returns `p` from `Add(p) = h`
until `Remove(h)` or a subtree-free scrub of `h` — fails in a reachable
trace: `Add` returns handle 33 with pointer 200; no `Remove(33)` and no
subtree free ever occurs, handles 0..31 and then 32 are freed instead,
yet after the free of handle 32 (whose compaction, misled by the stale
high-water mark `-1`, releases all storage) `Get(33)` is absent. -/
theorem c1_live_handle_lost_without_remove :
    (handle_table_add hwmTrace2 (some 200)).1 = 33 ∧
    handle_table_get hwmTrace3 33 = some 200 ∧
    handle_table_get hwmTrace4 33 = some 200 ∧
    handle_table_get hwmTrace6 33 = none := by
  decide

/-- C4: the claimed frame property — compaction changes no `Get` result
for a handle live immediately before it runs — fails in a reachable
state: in `hwmTrace5` (the exact state on which `YGNodeFree_wrap 32`
invokes `handle_table_compact`, with its trigger satisfied) handle 33 is
live with pointer 200, and after compaction `Get(33)` is absent. -/
theorem c4_compact_changes_get_of_live_handle :
    handle_table_get hwmTrace5 33 = some 200 ∧
    32 < hwmTrace5.free_list.length ∧
    hwmTrace5.capacity / 2 < hwmTrace5.free_list.length ∧
    handle_table_get (handle_table_compact hwmTrace5) 33 = none := by
  decide

/-- C5: the claimed trigger policy — after a free with more than 32 free
ids and free ids exceeding half of capacity, capacity shrinks to
`high_water_mark + 1` floored at 16 — fails: in `capTrace2` (the state on
which `YGNodeFree_wrap 1` evaluates its compaction trigger) there are 33
free ids, more than 32 and more than half of the 64 capacity, the
high-water mark is 0, so the claim predicts capacity 16; yet the
capacity after the call is still 64, because `handle_table_compact`
additionally requires the target to be below a quarter of capacity. -/
theorem c5_trigger_holds_but_capacity_unchanged :
    capTrace2.free_list.length = 33 ∧
    32 < capTrace2.free_list.length ∧
    capTrace2.capacity / 2 < capTrace2.free_list.length ∧
    capTrace2.high_water_mark = 0 ∧
    capTrace3.capacity = 64 ∧
    capTrace3.capacity ≠ 16 := by
  decide

/-- C7: the claimed cross-namespace behavior — a handle from the other
namespace resolves to absent and the operation is a no-op — fails: node
handle 0 (naming node address 600) passed to the config operation
resolves, in the config table, to the live config address 500, and the
operation mutates that config's flag rather than being a no-op. -/
theorem c7_cross_namespace_handle_not_absent :
    (YGNodeNew_wrap nsTrace1 600).1 = 0 ∧
    handle_table_get nsTrace2.node_table 0 = some 600 ∧
    handle_table_get nsTrace2.config_table 0 = some 500 ∧
    YGConfigSetUseWebDefaults_wrap nsTrace2 (fun _ => false) 0 1 500 = true := by
  decide

/-- C8: the claimed free-list behavior of `FreeSubtree` — exactly the root
handle is pushed onto the free list — fails: after recursively freeing the
valid root handle 0, the root's slot is cleared but the free list is
empty; `YGNodeFreeRecursive_wrap` never calls `handle_table_remove` and
pushes nothing. -/
theorem c8_root_not_pushed_onto_free_list :
    handle_table_get soloTable 0 = some 100 ∧
    handle_table_get soloFreed 0 = none ∧
    soloFreed.free_list = [] := by
  decide

/-- Clearing preserves the number of slots. -/
theorem clear_first_length (p : Nat) (c : Nat) (l : List (Option Nat)) :
    (clear_first p c l).length = l.length := by
  induction l generalizing c with
  | nil => simp [clear_first]
  | cons x xs ih =>
    cases c with
    | zero => simp [clear_first]
    | succ c => by_cases hx : x = some p <;> simp [clear_first, hx, ih]

/-- Each slot is either untouched by the clearing scan or was holding the
scanned pointer within range and is now empty. -/
theorem clear_first_get?_cases (p : Nat) (c : Nat) (l : List (Option Nat)) (i : Nat) :
    (clear_first p c l).get? i = l.get? i ∨
      (l.get? i = some (some p) ∧ (clear_first p c l).get? i = some none ∧ i < c) := by
  induction l generalizing c i with
  | nil => simp [clear_first]
  | cons x xs ih =>
    cases c with
    | zero => simp [clear_first]
    | succ c =>
      by_cases hx : x = some p
      · cases i with
        | zero => right; simp [clear_first, hx]
        | succ i => left; simp [clear_first, hx]
      · cases i with
        | zero => left; simp [clear_first, hx]
        | succ i =>
          rcases ih c i with h | ⟨h1, h2, h3⟩
          · left; simpa [clear_first, hx] using h
          · right; exact ⟨by simpa using h1, by simpa [clear_first, hx] using h2, by omega⟩

/-- The clearing scan removes exactly one in-range occurrence of the
scanned pointer when one exists. -/
theorem occ_clear_first (p : Nat) (c : Nat) (l : List (Option Nat)) :
    occ p c (clear_first p c l) = occ p c l - 1 := by
  induction l generalizing c with
  | nil => simp [clear_first, occ]
  | cons x xs ih =>
    cases c with
    | zero => simp [clear_first, occ]
    | succ c =>
      by_cases hx : x = some p
      · simp [clear_first, hx, occ]
      · simp [clear_first, hx, occ, ih]

/-- The clearing scan does not change the occurrence count of any other
pointer. -/
theorem occ_clear_first_other (p q : Nat) (hpq : q ≠ p) (c : Nat) (l : List (Option Nat)) :
    occ q c (clear_first p c l) = occ q c l := by
  induction l generalizing c with
  | nil => simp [clear_first]
  | cons x xs ih =>
    cases c with
    | zero => simp [clear_first]
    | succ c =>
      by_cases hx : x = some p
      · subst hx
        have : (some p : Option Nat) ≠ some q := by
          intro hc; exact hpq (by injection hc with h; exact h.symm)
        simp [clear_first, occ, this]
      · simp [clear_first, hx, occ, ih]

/-- The clearing scan never increases any occurrence count. -/
theorem occ_clear_first_le (p q : Nat) (c : Nat) (l : List (Option Nat)) :
    occ q c (clear_first p c l) ≤ occ q c l := by
  by_cases hpq : q = p
  · subst hpq; rw [occ_clear_first]; omega
  · rw [occ_clear_first_other p q hpq]

/-- Zero occurrences means no in-range slot holds the pointer. -/
theorem occ_eq_zero_iff (p : Nat) (c : Nat) (l : List (Option Nat)) :
    occ p c l = 0 ↔ ∀ i, i < c → l.get? i ≠ some (some p) := by
  induction l generalizing c with
  | nil => simp [occ]
  | cons x xs ih =>
    cases c with
    | zero => simp [occ]
    | succ c =>
      by_cases hx : x = some p
      · subst hx
        constructor
        · intro h; exact absurd h (by simp [occ])
        · intro h; exact absurd rfl (h 0 (by omega))
      · simp only [occ, if_neg hx, Nat.zero_add, ih]
        constructor
        · intro h i hi
          cases i with
          | zero => simpa using fun hc => hx hc
          | succ i => exact h i (by omega)
        · intro h i hi
          exact h (i + 1) (by omega)

/-- A failed scan means no in-range slot holds the pointer. -/
theorem find_ptr_eq_none_iff (p : Nat) (c : Nat) (l : List (Option Nat)) :
    find_ptr p c l = none ↔ ∀ i, i < c → l.get? i ≠ some (some p) := by
  induction l generalizing c with
  | nil => simp [find_ptr]
  | cons x xs ih =>
    cases c with
    | zero => simp [find_ptr]
    | succ c =>
      by_cases hx : x = some p
      · subst hx
        constructor
        · intro h; exact absurd h (by simp [find_ptr])
        · intro h; exact absurd rfl (h 0 (by omega))
      · simp only [find_ptr, if_neg hx, Option.map_eq_none', ih]
        constructor
        · intro h i hi
          cases i with
          | zero => simpa using fun hc => hx hc
          | succ i => exact h i (by omega)
        · intro h i hi
          exact h (i + 1) (by omega)

/-- A successful scan returns exactly the first in-range slot holding the
pointer. -/
theorem find_ptr_eq_some_iff (p : Nat) (c : Nat) (l : List (Option Nat)) (i : Nat) :
    find_ptr p c l = some i ↔
      i < c ∧ l.get? i = some (some p) ∧ ∀ j, j < i → l.get? j ≠ some (some p) := by
  induction l generalizing c i with
  | nil => simp [find_ptr]
  | cons x xs ih =>
    cases c with
    | zero => simp [find_ptr]
    | succ c =>
      by_cases hx : x = some p
      · subst hx
        simp only [find_ptr, if_pos rfl]
        constructor
        · intro h
          injection h with h
          subst h
          exact ⟨by omega, by simp, by omega⟩
        · rintro ⟨-, hget, hmin⟩
          cases i with
          | zero => rfl
          | succ i => exact absurd rfl (hmin 0 (by omega))
      · simp only [find_ptr, if_neg hx, Option.map_eq_some']
        constructor
        · rintro ⟨i', hfind, rfl⟩
          obtain ⟨h1, h2, h3⟩ := (ih c i').mp hfind
          refine ⟨by omega, by simpa using h2, ?_⟩
          intro j hj
          cases j with
          | zero => simpa using fun hc => hx hc
          | succ j => exact h3 j (by omega)
        · rintro ⟨h1, h2, h3⟩
          cases i with
          | zero => exact absurd (by simpa using h2) hx
          | succ i =>
            refine ⟨i, (ih c i).mpr ⟨by omega, by simpa using h2, ?_⟩, rfl⟩
            intro j hj
            exact h3 (j + 1) (by omega)

/-- After writing the pointer into an empty-scanned table, the scan finds
exactly that slot. -/
theorem find_ptr_set (p : Nat) (c : Nat) (l : List (Option Nat)) (h : Nat)
    (hnone : find_ptr p c l = none) (hc : h < c) (hl : h < l.length) :
    find_ptr p c (l.set h (some p)) = some h := by
  rw [find_ptr_eq_some_iff]
  refine ⟨hc, List.get?_set_eq_of_lt _ hl, ?_⟩
  intro j hj
  rw [List.get?_set_ne _ _ (by omega)]
  exact (find_ptr_eq_none_iff p c l).mp hnone j (by omega)

/-- Extending the scanned range by one slot. -/
theorem find_ptr_succ_of_none (p : Nat) (c : Nat) (l : List (Option Nat))
    (hnone : find_ptr p c l = none) (hc : l.get? c ≠ some (some p)) :
    find_ptr p (c + 1) l = none := by
  rw [find_ptr_eq_none_iff]
  intro i hi
  rcases Nat.lt_or_ge i c with hlt | hge
  · exact (find_ptr_eq_none_iff p c l).mp hnone i hlt
  · have : i = c := by omega
    subst this; exact hc

/-- The clearing pass changes only `items`, so `count` is preserved. -/
theorem clearStep_count (p : Nat) (t : HandleTable) : (clearStep p t).count = t.count := rfl

/-- The clearing pass preserves the free list. -/
theorem clearStep_free_list (p : Nat) (t : HandleTable) :
    (clearStep p t).free_list = t.free_list := rfl

/-- The clearing pass preserves the capacity. -/
theorem clearStep_capacity (p : Nat) (t : HandleTable) :
    (clearStep p t).capacity = t.capacity := rfl

/-- The clearing pass preserves the high-water mark. -/
theorem clearStep_high_water_mark (p : Nat) (t : HandleTable) :
    (clearStep p t).high_water_mark = t.high_water_mark := rfl

/-- The clearing pass preserves the number of slots. -/
theorem clearStep_items_length (p : Nat) (t : HandleTable) :
    (clearStep p t).items.length = t.items.length :=
  clear_first_length p t.count t.items

/-- Slot-wise view of the clearing pass. -/
theorem clearStep_get?_cases (p : Nat) (t : HandleTable) (i : Nat) :
    (clearStep p t).items.get? i = t.items.get? i ∨
      (t.items.get? i = some (some p) ∧ (clearStep p t).items.get? i = some none ∧
        i < t.count) :=
  clear_first_get?_cases p t.count t.items i

/-- The clearing pass removes one in-range occurrence of its pointer. -/
theorem occ_clearStep (p : Nat) (t : HandleTable) :
    occ p t.count (clearStep p t).items = occ p t.count t.items - 1 :=
  occ_clear_first p t.count t.items

/-- The clearing pass never increases any occurrence count. -/
theorem occ_clearStep_le (p q : Nat) (t : HandleTable) :
    occ q t.count (clearStep p t).items ≤ occ q t.count t.items :=
  occ_clear_first_le p q t.count t.items

/-- The recursive scrub never changes `count` (the C loop bound). -/
theorem scrubForest_count : ∀ (l : YGForest) (t : HandleTable),
    (scrubForest l t).count = t.count
  | .nil, _ => rfl
  | .cons (.mk p cs) rest, t => by
    simp only [scrubForest]
    rw [scrubForest_count rest, clearStep_count, scrubForest_count cs]

/-- The recursive scrub never touches the free list. -/
theorem scrubForest_free_list : ∀ (l : YGForest) (t : HandleTable),
    (scrubForest l t).free_list = t.free_list
  | .nil, _ => rfl
  | .cons (.mk p cs) rest, t => by
    simp only [scrubForest]
    rw [scrubForest_free_list rest, clearStep_free_list, scrubForest_free_list cs]

/-- The recursive scrub never changes the capacity. -/
theorem scrubForest_capacity : ∀ (l : YGForest) (t : HandleTable),
    (scrubForest l t).capacity = t.capacity
  | .nil, _ => rfl
  | .cons (.mk p cs) rest, t => by
    simp only [scrubForest]
    rw [scrubForest_capacity rest, clearStep_capacity, scrubForest_capacity cs]

/-- The recursive scrub never changes the high-water mark (the C code
clears slots directly, bypassing `handle_table_remove`). -/
theorem scrubForest_high_water_mark : ∀ (l : YGForest) (t : HandleTable),
    (scrubForest l t).high_water_mark = t.high_water_mark
  | .nil, _ => rfl
  | .cons (.mk p cs) rest, t => by
    simp only [scrubForest]
    rw [scrubForest_high_water_mark rest, clearStep_high_water_mark,
      scrubForest_high_water_mark cs]

/-- The recursive scrub preserves the number of slots. -/
theorem scrubForest_items_length : ∀ (l : YGForest) (t : HandleTable),
    (scrubForest l t).items.length = t.items.length
  | .nil, _ => rfl
  | .cons (.mk p cs) rest, t => by
    simp only [scrubForest]
    rw [scrubForest_items_length rest, clearStep_items_length, scrubForest_items_length cs]

/-- Frame property of the recursive scrub: each slot is either untouched,
or held a pointer of the scrubbed forest and is now empty. -/
theorem scrubForest_get?_cases : ∀ (l : YGForest) (t : HandleTable) (i : Nat),
    (scrubForest l t).items.get? i = t.items.get? i ∨
      (∃ q ∈ forestPtrs l, t.items.get? i = some (some q) ∧
        (scrubForest l t).items.get? i = some none)
  | .nil, _, _ => Or.inl rfl
  | .cons (.mk p cs) rest, t, i => by
    simp only [scrubForest, forestPtrs]
    have hcs := scrubForest_get?_cases cs t i
    have hcl := clearStep_get?_cases p (scrubForest cs t) i
    have hrest := scrubForest_get?_cases rest (clearStep p (scrubForest cs t)) i
    rcases hrest with h3 | ⟨q, hq, h3a, h3b⟩
    · rw [h3]
      rcases hcl with h2 | ⟨h2a, h2b, -⟩
      · rw [h2]
        rcases hcs with h1 | ⟨q, hq, h1a, h1b⟩
        · exact Or.inl h1
        · exact Or.inr ⟨q, List.mem_cons_of_mem _ (List.mem_append_left _ hq), h1a, h1b⟩
      · rcases hcs with h1 | ⟨q, hq, h1a, h1b⟩
        · exact Or.inr ⟨p, List.mem_cons_self _ _, h1 ▸ h2a, h2b⟩
        · rw [h1b] at h2a
          exact absurd h2a (by simp)
    · rcases hcl with h2 | ⟨h2a, h2b, -⟩
      · rw [h2] at h3a
        rcases hcs with h1 | ⟨q', hq', h1a, h1b⟩
        · exact Or.inr
            ⟨q, List.mem_cons_of_mem _ (List.mem_append_right _ hq), h1 ▸ h3a, h3b⟩
        · rw [h1b] at h3a
          exact absurd h3a (by simp)
      · rw [h2b] at h3a
        exact absurd h3a (by simp)

/-- The recursive scrub never increases the occurrence count of any
pointer. -/
theorem occ_scrubForest_le : ∀ (l : YGForest) (t : HandleTable) (q : Nat),
    occ q t.count (scrubForest l t).items ≤ occ q t.count t.items
  | .nil, _, _ => le_refl _
  | .cons (.mk p cs) rest, t, q => by
    simp only [scrubForest]
    have hc : (scrubForest cs t).count = t.count := scrubForest_count cs t
    have h1 := occ_scrubForest_le cs t q
    have h2 := occ_clearStep_le p q (scrubForest cs t)
    rw [hc] at h2
    have h3 := occ_scrubForest_le rest (clearStep p (scrubForest cs t)) q
    rw [clearStep_count, hc] at h3
    exact le_trans h3 (le_trans h2 h1)

/-- Scrubbing a forest removes at least one in-range occurrence of each of
the forest's pointers (when one is present). -/
theorem occ_scrubForest_of_mem : ∀ (l : YGForest) (t : HandleTable) (p : Nat),
    p ∈ forestPtrs l →
    occ p t.count (scrubForest l t).items ≤ occ p t.count t.items - 1
  | .cons (.mk q cs) rest, t, p, hp => by
    simp only [forestPtrs, List.mem_cons, List.mem_append] at hp
    simp only [scrubForest]
    have hc : (scrubForest cs t).count = t.count := scrubForest_count cs t
    have hcs_le := occ_scrubForest_le cs t p
    have hcl_le := occ_clearStep_le q p (scrubForest cs t)
    rw [hc] at hcl_le
    have hrest_le := occ_scrubForest_le rest (clearStep q (scrubForest cs t)) p
    rw [clearStep_count, hc] at hrest_le
    rcases hp with hpq | hpcs | hprest
    · subst hpq
      have hdrop := occ_clearStep p (scrubForest cs t)
      rw [hc] at hdrop
      rw [hdrop] at hrest_le
      omega
    · have hih := occ_scrubForest_of_mem cs t p hpcs
      omega
    · have hih := occ_scrubForest_of_mem rest (clearStep q (scrubForest cs t)) p hprest
      rw [clearStep_count, hc] at hih
      omega

/-- Characterization of a successful lookup. -/
theorem handle_table_get_eq_some_iff (t : HandleTable) (g : Int) (q : Nat) :
    handle_table_get t g = some q ↔
      0 ≤ g ∧ g < (t.count : Int) ∧ t.items.get? g.toNat = some (some q) := by
  unfold handle_table_get
  by_cases hc : 0 ≤ g ∧ g < (t.count : Int)
  · rw [if_pos hc, Option.join_eq_some]
    exact ⟨fun hj => ⟨hc.1, hc.2, hj⟩, fun hj => hj.2.2⟩
  · rw [if_neg hc]
    constructor
    · intro hn; exact absurd hn (by simp)
    · intro hj; exact absurd ⟨hj.1, hj.2.1⟩ hc

/-- A pointer of the scrubbed forest with at most one in-range slot is
absent from the table afterwards: any handle that resolved to it resolves
to nothing. -/
theorem scrub_get_none (t : HandleTable) (l : YGForest) (g : Int) (q : Nat)
    (hq : q ∈ forestPtrs l) (hocc : occ q t.count t.items ≤ 1)
    (hget : handle_table_get t g = some q) :
    handle_table_get (scrubForest l t) g = none := by
  obtain ⟨h0, hlt, hslot⟩ := (handle_table_get_eq_some_iff t g q).mp hget
  have hcnt : (scrubForest l t).count = t.count := scrubForest_count l t
  have hzero : occ q t.count (scrubForest l t).items = 0 := by
    have := occ_scrubForest_of_mem l t q hq
    omega
  have hne := (occ_eq_zero_iff q t.count (scrubForest l t).items).mp hzero
  have hnat : g.toNat < t.count := by omega
  rcases scrubForest_get?_cases l t g.toNat with hsame | ⟨q', hq', ha, hb⟩
  · exact absurd (hsame.trans hslot) (hne g.toNat hnat)
  · unfold handle_table_get
    rw [if_pos (by rw [hcnt]; exact ⟨h0, hlt⟩), hb]
    rfl

/-- A pointer of the scrubbed forest that no handle resolved to before the
scrub is still resolved by no handle afterwards (the scrub only clears
slots, it never writes a pointer). -/
theorem scrub_get_ne (t : HandleTable) (l : YGForest) (q : Nat)
    (habsent : ∀ g : Int, handle_table_get t g ≠ some q) :
    ∀ g : Int, handle_table_get (scrubForest l t) g ≠ some q := by
  intro g hcontra
  obtain ⟨h0, hlt, hslot⟩ := (handle_table_get_eq_some_iff _ g q).mp hcontra
  have hcnt : (scrubForest l t).count = t.count := scrubForest_count l t
  rcases scrubForest_get?_cases l t g.toNat with hsame | ⟨q', hq', ha, hb⟩
  · refine habsent g ((handle_table_get_eq_some_iff t g q).mpr ⟨h0, ?_, ?_⟩)
    · omega
    · rw [← hsame]; exact hslot
  · rw [hb] at hslot
    exact absurd hslot (by simp)

/-- The root's address is among its subtree's addresses. -/
theorem ptr_mem_subtreePtrs (root : YGNode) : root.ptr ∈ subtreePtrs root := by
  cases root with
  | mk p cs => simp [subtreePtrs, forestPtrs, YGNode.ptr]

/-- C2: once a valid handle resolves, `YGNodeFreeRecursive_wrap` first
scrubs the handle table and only then invokes the native recursive free:
by the statement order of the C code, the table it returns is exactly the
state passed to `YGNodeFreeRecursive`.  In that state (a) every node of
the root's subtree that had a handle at call time has it cleared — any
handle that resolved to a subtree address now resolves to nothing; (b) a
subtree node that had no handle at call time acquires none — no handle
resolves to its address afterwards either; and (c) slots outside the
subtree are untouched.  The hypothesis `hocc` states that each subtree
address occupies at most one slot, which holds whenever addresses are
distinct (the C scan clears only the first match). -/
theorem c2_free_subtree_scrubs_before_native_free
    (t : HandleTable) (h : Int) (root : YGNode)
    (hres : handle_table_get t h = some root.ptr)
    (hocc : ∀ q ∈ subtreePtrs root, occ q t.count t.items ≤ 1) :
    (∀ g : Int, ∀ q ∈ subtreePtrs root, handle_table_get t g = some q →
        handle_table_get (YGNodeFreeRecursive_wrap t h root) g = none) ∧
    (∀ q ∈ subtreePtrs root, (∀ g : Int, handle_table_get t g ≠ some q) →
        ∀ g : Int, handle_table_get (YGNodeFreeRecursive_wrap t h root) g ≠ some q) ∧
    (∀ i : Nat, (YGNodeFreeRecursive_wrap t h root).items.get? i = t.items.get? i ∨
        ∃ q ∈ subtreePtrs root, t.items.get? i = some (some q) ∧
          (YGNodeFreeRecursive_wrap t h root).items.get? i = some none) := by
  have hw : YGNodeFreeRecursive_wrap t h root = scrubForest (.cons root .nil) t := by
    unfold YGNodeFreeRecursive_wrap
    rw [hres]
  rw [hw]
  refine ⟨?_, ?_, ?_⟩
  · intro g q hq hget
    exact scrub_get_none t (.cons root .nil) g q hq (hocc q hq) hget
  · intro q hq habsent g
    exact scrub_get_ne t (.cons root .nil) q habsent g
  · intro i
    exact scrubForest_get?_cases (.cons root .nil) t i

/-- Witness for C2 at the three-level demo tree: the middle node's handle
1 (address 2) is absent after the recursive free of root handle 0. -/
theorem c2_free_subtree_scrubs_before_native_free_witness :
    handle_table_get (YGNodeFreeRecursive_wrap demoTable 0 demoTree) 1 = none :=
  (c2_free_subtree_scrubs_before_native_free demoTable 0 demoTree
    (by decide) (by decide)).1 1 2 (by decide) (by decide)

/-- C8 (amended): `YGNodeFreeRecursive_wrap` pushes nothing onto the free
list — not even the explicitly freed root.  The free list is unchanged,
while the root's handle is still cleared from its slot; the root id
becomes recyclable only if a later compaction rebuilds the free list. -/
theorem c8_amended_free_subtree_pushes_nothing
    (t : HandleTable) (h : Int) (root : YGNode)
    (hres : handle_table_get t h = some root.ptr)
    (hocc : occ root.ptr t.count t.items ≤ 1) :
    (YGNodeFreeRecursive_wrap t h root).free_list = t.free_list ∧
    handle_table_get (YGNodeFreeRecursive_wrap t h root) h = none := by
  have hw : YGNodeFreeRecursive_wrap t h root = scrubForest (.cons root .nil) t := by
    unfold YGNodeFreeRecursive_wrap
    rw [hres]
  rw [hw]
  constructor
  · exact scrubForest_free_list _ t
  · exact scrub_get_none t (.cons root .nil) h root.ptr (ptr_mem_subtreePtrs root) hocc hres

/-- Witness for the amended C8 at the single-node table: the free list is
unchanged (empty) and the root handle is gone. -/
theorem c8_amended_free_subtree_pushes_nothing_witness :
    (YGNodeFreeRecursive_wrap soloTable 0 soloNode).free_list = soloTable.free_list ∧
    handle_table_get (YGNodeFreeRecursive_wrap soloTable 0 soloNode) 0 = none :=
  c8_amended_free_subtree_pushes_nothing soloTable 0 soloNode (by decide) (by decide)

/-- A lookup whose slot is empty returns NULL. -/
theorem handle_table_get_eq_none_of_join (t : HandleTable) (h : Int)
    (hj : (t.items.get? h.toNat).join = none) : handle_table_get t h = none := by
  unfold handle_table_get
  split
  · exact hj
  · rfl

/-- A lookup at or beyond `count` returns NULL. -/
theorem handle_table_get_eq_none_of_ge (t : HandleTable) (h : Int)
    (hge : (t.count : Int) ≤ h) : handle_table_get t h = none := by
  unfold handle_table_get
  rw [if_neg]
  omega

/-- On the recycle path, `handle_table_add` pops the head of the free list
and stores the pointer in that slot. -/
theorem add_pop_spec (t : HandleTable) (p : Nat) (fh : Nat) (rest : List Nat)
    (hfl : t.free_list = fh :: rest) :
    handle_table_add t (some p) =
      ((fh : Int), { t with items := t.items.set fh (some p), free_list := rest }) := by
  unfold handle_table_add
  rw [hfl]

/-- Appending NULL slots changes no slot content up to `Option.join`. -/
theorem join_get?_append_replicate_none (l : List (Option Nat)) (k i : Nat) :
    (((l ++ List.replicate k none).get? i).join : Option Nat) = (l.get? i).join := by
  rcases Nat.lt_or_ge i l.length with hlt | hge
  · rw [List.get?_append hlt]
  · rw [List.get?_len_le hge, List.get?_append_right hge]
    cases hrep : (List.replicate k (none : Option Nat)).get? (i - l.length) with
    | none => rfl
    | some x =>
      have hx := List.eq_of_mem_replicate (List.get?_mem hrep)
      subst hx
      rfl

/-- Growth preserves `count`. -/
theorem grow_count (t : HandleTable) : (grow_if_needed t).count = t.count := by
  unfold grow_if_needed; split <;> rfl

/-- Growth preserves the free list. -/
theorem grow_free_list (t : HandleTable) : (grow_if_needed t).free_list = t.free_list := by
  unfold grow_if_needed; split <;> rfl

/-- Growth preserves the high-water mark. -/
theorem grow_high_water_mark (t : HandleTable) :
    (grow_if_needed t).high_water_mark = t.high_water_mark := by
  unfold grow_if_needed; split <;> rfl

/-- Growth changes no slot content up to `Option.join`. -/
theorem grow_join (t : HandleTable) (i : Nat) :
    (((grow_if_needed t).items.get? i).join : Option Nat) = (t.items.get? i).join := by
  unfold grow_if_needed
  split
  · exact join_get?_append_replicate_none t.items _ i
  · rfl

/-- After growth the storage is still exactly `capacity` slots and the
next id `count` is strictly inside it. -/
theorem grow_len (t : HandleTable) (hlen : t.items.length = t.capacity)
    (hcnt : t.count ≤ t.capacity) :
    (grow_if_needed t).items.length = (grow_if_needed t).capacity ∧
    t.count < (grow_if_needed t).capacity := by
  unfold grow_if_needed
  split
  · constructor
    · simp only [List.length_append, List.length_replicate, hlen]
      split <;> omega
    · show t.count < (if t.capacity = 0 then 16 else t.capacity * 2)
      split <;> omega
  · exact ⟨hlen, by omega⟩

/-- Full characterization of the bump path. -/
theorem bump_add_spec (t : HandleTable) (p : Nat)
    (hlen : t.items.length = t.capacity) (hcnt : t.count ≤ t.capacity) :
    (bump_add t p).1 = (t.count : Int) ∧
    (bump_add t p).2.count = t.count + 1 ∧
    (bump_add t p).2.free_list = t.free_list ∧
    (bump_add t p).2.items.length = (bump_add t p).2.capacity ∧
    t.count < (bump_add t p).2.items.length ∧
    (bump_add t p).2.items.get? t.count = some (some p) ∧
    ∀ i, i ≠ t.count →
      (((bump_add t p).2.items.get? i).join : Option Nat) = (t.items.get? i).join := by
  obtain ⟨hgl, hglt⟩ := grow_len t hlen hcnt
  have hc : (grow_if_needed t).count = t.count := grow_count t
  have hsetlen : (grow_if_needed t).count < (grow_if_needed t).items.length := by
    rw [hc, hgl]; exact hglt
  unfold bump_add
  dsimp only
  refine ⟨by rw [hc], ?_, ?_, ?_, ?_, ?_, ?_⟩
  · split <;> (show _ + 1 = t.count + 1; rw [hc])
  · split <;> (show (grow_if_needed t).free_list = t.free_list; exact grow_free_list t)
  · split <;>
      (show ((grow_if_needed t).items.set _ _).length = (grow_if_needed t).capacity;
       rw [List.length_set]; exact hgl)
  · split <;>
      (show t.count < ((grow_if_needed t).items.set _ _).length;
       rw [List.length_set, hgl]; exact hglt)
  · split <;>
      (show ((grow_if_needed t).items.set (grow_if_needed t).count (some p)).get? t.count =
        some (some p);
       rw [← hc]; exact List.get?_set_eq_of_lt _ hsetlen)
  · intro i hi
    have hne : (grow_if_needed t).count ≠ i := by rw [hc]; exact fun he => hi he.symm
    split <;>
      (show ((((grow_if_needed t).items.set (grow_if_needed t).count (some p)).get? i).join :
          Option Nat) = _;
       rw [List.get?_set_ne _ _ hne]; exact grow_join t i)

/-- On the bump path (empty free list), `handle_table_add` returns the old
`count` as the handle, increments `count`, stores the pointer in the new
slot, keeps every other slot's content (up to `Option.join`), keeps the
free list empty, and keeps `items` exactly `capacity` slots long with the
new handle strictly inside. -/
theorem add_fresh_spec (t : HandleTable) (p : Nat) (hfl : t.free_list = [])
    (hlen : t.items.length = t.capacity) (hcnt : t.count ≤ t.capacity) :
    (handle_table_add t (some p)).1 = (t.count : Int) ∧
    (handle_table_add t (some p)).2.count = t.count + 1 ∧
    (handle_table_add t (some p)).2.free_list = [] ∧
    (handle_table_add t (some p)).2.items.length = (handle_table_add t (some p)).2.capacity ∧
    t.count < (handle_table_add t (some p)).2.items.length ∧
    (handle_table_add t (some p)).2.items.get? t.count = some (some p) ∧
    ∀ i, i ≠ t.count →
      (((handle_table_add t (some p)).2.items.get? i).join : Option Nat) =
        (t.items.get? i).join := by
  have he : handle_table_add t (some p) = bump_add t p := by
    unfold handle_table_add
    rw [hfl]
  rw [he, ← hfl]
  exact bump_add_spec t p hlen hcnt

/-- One clearing pass preserves the table invariant. -/
theorem inv_clearStep (p : Nat) (t : HandleTable) (hi : TableInv t) :
    TableInv (clearStep p t) := by
  refine ⟨?_, hi.count_le, hi.free_lt, ?_, hi.free_nodup, ?_⟩
  · show (clearStep p t).items.length = t.capacity
    rw [clearStep_items_length, hi.len_eq]
  · intro i him
    rcases clearStep_get?_cases p t i with hsame | ⟨-, hb, -⟩
    · show ((clearStep p t).items.get? i).join = none
      rw [hsame]
      exact hi.free_empty i him
    · show ((clearStep p t).items.get? i).join = none
      rw [hb]
      rfl
  · intro i hig
    rcases clearStep_get?_cases p t i with hsame | ⟨-, hb, -⟩
    · show ((clearStep p t).items.get? i).join = none
      rw [hsame]
      exact hi.above_empty i hig
    · show ((clearStep p t).items.get? i).join = none
      rw [hb]
      rfl

/-- The recursive scrub preserves the table invariant. -/
theorem inv_scrubForest : ∀ (l : YGForest) (t : HandleTable),
    TableInv t → TableInv (scrubForest l t)
  | .nil, _, hi => hi
  | .cons (.mk p cs) rest, t, hi => by
    simp only [scrubForest]
    exact inv_scrubForest rest _ (inv_clearStep p _ (inv_scrubForest cs t hi))

/-- Adding preserves the table invariant. -/
theorem inv_add (t : HandleTable) (hi : TableInv t) (p : Option Nat) :
    TableInv (handle_table_add t p).2 := by
  cases p with
  | none => exact hi
  | some p =>
    cases hfl : t.free_list with
    | cons fh rest =>
      rw [add_pop_spec t p fh rest hfl]
      have hfh_lt : fh < t.count := hi.free_lt fh (by rw [hfl]; exact List.mem_cons_self _ _)
      have hnd := hi.free_nodup
      rw [hfl] at hnd
      refine ⟨?_, hi.count_le, ?_, ?_, (List.nodup_cons.mp hnd).2, ?_⟩
      · show (t.items.set fh (some p)).length = t.capacity
        rw [List.length_set, hi.len_eq]
      · intro i him
        exact hi.free_lt i (by rw [hfl]; exact List.mem_cons_of_mem _ him)
      · intro i him
        have hne : fh ≠ i := by
          intro he
          subst he
          exact (List.nodup_cons.mp hnd).1 him
        show ((t.items.set fh (some p)).get? i).join = none
        rw [List.get?_set_ne _ _ hne]
        exact hi.free_empty i (by rw [hfl]; exact List.mem_cons_of_mem _ him)
      · intro i hig
        have hig2 : t.count ≤ i := hig
        have hne : fh ≠ i := by omega
        show ((t.items.set fh (some p)).get? i).join = none
        rw [List.get?_set_ne _ _ hne]
        exact hi.above_empty i hig
    | nil =>
      obtain ⟨h1, h2, h3, h4, h5, h6, h7⟩ := add_fresh_spec t p hfl hi.len_eq hi.count_le
      refine ⟨h4, ?_, ?_, ?_, ?_, ?_⟩
      · rw [h2, ← h4]
        omega
      · intro i him
        rw [h3] at him
        exact absurd him (List.not_mem_nil i)
      · intro i him
        rw [h3] at him
        exact absurd him (List.not_mem_nil i)
      · rw [h3]
        exact List.nodup_nil
      · intro i hig
        rw [h2] at hig
        rw [h7 i (by omega)]
        exact hi.above_empty i (by omega)

/-- Overwriting the high-water mark does not affect the invariant (which
deliberately does not constrain it). -/
theorem inv_hwm_if (t2 : HandleTable) (h2 : TableInv t2) (c : Prop) [Decidable c] (x : Int) :
    TableInv (if c then { t2 with high_water_mark := x } else t2) := by
  split
  · exact ⟨h2.len_eq, h2.count_le, h2.free_lt, h2.free_empty, h2.free_nodup, h2.above_empty⟩
  · exact h2

/-- Removing preserves the table invariant. -/
theorem inv_remove (t : HandleTable) (hi : TableInv t) (h : Int) :
    TableInv (handle_table_remove t h) := by
  unfold handle_table_remove
  split
  · exact hi
  split
  case isFalse => exact hi
  case isTrue hcap hc =>
    dsimp only
    have hlt : h.toNat < t.count := by omega
    have hlen : h.toNat < t.items.length := by
      rw [hi.len_eq]
      have := hi.count_le
      omega
    have hsome : (t.items.get? h.toNat).join.isSome := hc.2.2
    have hnotfree : h.toNat ∉ t.free_list := by
      intro hmem
      rw [hi.free_empty h.toNat hmem] at hsome
      exact absurd hsome (by simp)
    have hself : ((t.items.set h.toNat none).get? h.toNat).join = none := by
      rw [List.get?_set_eq_of_lt _ hlen]
      rfl
    have hother : ∀ i, i ≠ h.toNat →
        ((t.items.set h.toNat none).get? i).join = (t.items.get? i).join := by
      intro i hne
      rw [List.get?_set_ne _ _ (fun he => hne he.symm)]
    have hbase : TableInv { t with items := t.items.set h.toNat none } := by
      refine ⟨?_, hi.count_le, hi.free_lt, ?_, hi.free_nodup, ?_⟩
      · show (t.items.set h.toNat none).length = t.capacity
        rw [List.length_set, hi.len_eq]
      · intro i him
        by_cases hie : i = h.toNat
        · subst hie; exact hself
        · show ((t.items.set h.toNat none).get? i).join = none
          rw [hother i hie]
          exact hi.free_empty i him
      · intro i hig
        by_cases hie : i = h.toNat
        · subst hie; exact hself
        · show ((t.items.set h.toNat none).get? i).join = none
          rw [hother i hie]
          exact hi.above_empty i hig
    have hpushed : TableInv
        (if t.free_list.length < t.capacity then
          { t with items := t.items.set h.toNat none,
                   free_list := h.toNat :: t.free_list }
        else { t with items := t.items.set h.toNat none }) := by
      split
      · refine ⟨hbase.len_eq, hi.count_le, ?_, ?_, ?_, hbase.above_empty⟩
        · intro i him
          rcases List.mem_cons.mp him with rfl | him'
          · exact hlt
          · exact hi.free_lt i him'
        · intro i him
          rcases List.mem_cons.mp him with rfl | him'
          · exact hself
          · exact hbase.free_empty i him'
        · exact List.nodup_cons.mpr ⟨hnotfree, hi.free_nodup⟩
      · exact hbase
    apply inv_hwm_if _ hpushed

/-- Every id pushed by the rebuild loop comes from the scanned range and
names an empty slot. -/
theorem rebuild_fold_mem (items : List (Option Nat)) (capacity : Nat) :
    ∀ (xs : List Nat) (acc : List Nat) (j : Nat),
      j ∈ xs.foldl
        (fun acc i =>
          if (items.get? i).join.isNone ∧ acc.length < capacity then i :: acc else acc)
        acc →
      j ∈ acc ∨ (j ∈ xs ∧ (items.get? j).join = none)
  | [], _, _, hj => Or.inl hj
  | x :: xs, acc, j, hj => by
    simp only [List.foldl_cons] at hj
    rcases rebuild_fold_mem items capacity xs _ j hj with hacc | ⟨hxs, hnone⟩
    · by_cases hcond : (items.get? x).join.isNone ∧ acc.length < capacity
      · rw [if_pos hcond] at hacc
        rcases List.mem_cons.mp hacc with rfl | hacc'
        · exact Or.inr ⟨List.mem_cons_self _ _, Option.isNone_iff_eq_none.mp hcond.1⟩
        · exact Or.inl hacc'
      · rw [if_neg hcond] at hacc
        exact Or.inl hacc
    · exact Or.inr ⟨List.mem_cons_of_mem _ hxs, hnone⟩

/-- The rebuild loop never pushes an id twice. -/
theorem rebuild_fold_nodup (items : List (Option Nat)) (capacity : Nat) :
    ∀ (xs : List Nat) (acc : List Nat), acc.Nodup → (∀ j ∈ acc, j ∉ xs) → xs.Nodup →
      (xs.foldl
        (fun acc i =>
          if (items.get? i).join.isNone ∧ acc.length < capacity then i :: acc else acc)
        acc).Nodup
  | [], _, hnd, _, _ => hnd
  | x :: xs, acc, hnd, hdis, hxs => by
    simp only [List.foldl_cons]
    have hxnd := List.nodup_cons.mp hxs
    refine rebuild_fold_nodup items capacity xs _ ?_ ?_ hxnd.2
    · by_cases hcond : (items.get? x).join.isNone ∧ acc.length < capacity
      · rw [if_pos hcond]
        exact List.nodup_cons.mpr
          ⟨fun hmem => (hdis x hmem) (List.mem_cons_self _ _), hnd⟩
      · rw [if_neg hcond]
        exact hnd
    · intro j hj
      by_cases hcond : (items.get? x).join.isNone ∧ acc.length < capacity
      · rw [if_pos hcond] at hj
        rcases List.mem_cons.mp hj with rfl | hj'
        · exact hxnd.1
        · exact fun hcon => hdis j hj' (List.mem_cons_of_mem _ hcon)
      · rw [if_neg hcond] at hj
        exact fun hcon => hdis j hj (List.mem_cons_of_mem _ hcon)

/-- The rebuilt free list holds only in-range ids of empty slots. -/
theorem rebuild_free_mem (items : List (Option Nat)) (capacity hwm : Nat) (j : Nat)
    (hj : j ∈ rebuild_free items capacity hwm) :
    j < hwm + 1 ∧ (items.get? j).join = none := by
  unfold rebuild_free at hj
  rcases rebuild_fold_mem items capacity (List.range (hwm + 1)) [] j hj with hin | ⟨hr, hn⟩
  · exact absurd hin (List.not_mem_nil j)
  · exact ⟨List.mem_range.mp hr, hn⟩

/-- The rebuilt free list has no duplicates. -/
theorem rebuild_free_nodup (items : List (Option Nat)) (capacity hwm : Nat) :
    (rebuild_free items capacity hwm).Nodup := by
  unfold rebuild_free
  exact rebuild_fold_nodup items capacity (List.range (hwm + 1)) [] List.nodup_nil
    (by intro j hj; exact absurd hj (List.not_mem_nil j)) (List.nodup_range _)

/-- The shrink branch of compaction yields an invariant-respecting table
for any target at least `high_water_mark + 1` and within the storage. -/
theorem inv_compact_shrink (t : HandleTable) (target : Nat)
    (hge : t.high_water_mark.toNat + 1 ≤ target) (hlen : target ≤ t.items.length) :
    TableInv { items := t.items.take target,
               free_list := rebuild_free (t.items.take target) target t.high_water_mark.toNat,
               capacity := target, count := target,
               high_water_mark := t.high_water_mark } := by
  have hlen_take : (t.items.take target).length = target := by
    rw [List.length_take]
    omega
  refine ⟨hlen_take, le_refl _, ?_, ?_, rebuild_free_nodup _ _ _, ?_⟩
  · intro i him
    have h1 := (rebuild_free_mem _ _ _ i him).1
    show i < target
    omega
  · intro i him
    exact (rebuild_free_mem _ _ _ i him).2
  · intro i hig
    have hig2 : target ≤ i := hig
    show ((t.items.take target).get? i).join = none
    rw [List.get?_len_le (le_trans (le_of_eq hlen_take) hig2)]
    rfl

/-- Compaction preserves the table invariant. -/
theorem inv_compact (t : HandleTable) (hi : TableInv t) :
    TableInv (handle_table_compact t) := by
  unfold handle_table_compact
  split
  · exact ⟨rfl, le_refl 0, fun i hm => absurd hm (List.not_mem_nil i),
      fun i hm => absurd hm (List.not_mem_nil i), List.nodup_nil, fun i _ => rfl⟩
  · dsimp only
    by_cases h16 : t.high_water_mark.toNat + 1 < 16
    · rw [if_pos h16]
      split
      next hlt =>
        refine inv_compact_shrink t 16 (by omega) ?_
        rw [hi.len_eq]
        have := Nat.div_le_self t.capacity 4
        omega
      next => exact hi
    · rw [if_neg h16]
      split
      next hlt =>
        refine inv_compact_shrink t (t.high_water_mark.toNat + 1) (le_refl _) ?_
        rw [hi.len_eq]
        have := Nat.div_le_self t.capacity 4
        omega
      next => exact hi

/-- Every primitive table step preserves the invariant. -/
theorem inv_step (a b : HandleTable) (hs : Step a b) (hi : TableInv a) : TableInv b := by
  cases hs with
  | add p => exact inv_add a hi p
  | remove h => exact inv_remove a hi h
  | compact => exact inv_compact a hi
  | scrub l => exact inv_scrubForest l a hi

/-- The static initializer satisfies the invariant. -/
theorem inv_init : TableInv initTable :=
  ⟨rfl, le_refl 0, fun i hm => absurd hm (List.not_mem_nil i),
    fun i hm => absurd hm (List.not_mem_nil i), List.nodup_nil, fun _ _ => rfl⟩

/-- Every reachable table state satisfies the invariant. -/
theorem reachable_inv (t : HandleTable) (hr : Reachable t) : TableInv t := by
  induction hr with
  | refl => exact inv_init
  | tail _ hstep ih => exact inv_step _ _ hstep ih

/-- C6: in every reachable state of one handle table, `handle_table_add`
never hands out an id that is currently live: whenever an add on a
reachable state returns a non-sentinel handle, `Get` of that handle in the
pre-add state is absent, so a live id can be returned again only after it
has ceased to be live (its slot cleared by a remove or scrub).  The other
half of the claim — no two currently-live handles are equal — is
definitional in this design: a handle is its slot index, and distinct
indices name distinct slots, so each occupied slot is named by exactly one
live handle. -/
theorem c6_add_never_hands_out_live_id (t : HandleTable) (hr : Reachable t)
    (p : Option Nat) (h : Int) (t' : HandleTable)
    (hadd : handle_table_add t p = (h, t')) (hpos : 0 ≤ h) :
    handle_table_get t h = none := by
  have hi := reachable_inv t hr
  cases p with
  | none =>
    have hneg : (-1 : Int) = h := congrArg Prod.fst hadd
    exact absurd hpos (by omega)
  | some p =>
    cases hfl : t.free_list with
    | cons fh rest =>
      have he := add_pop_spec t p fh rest hfl
      rw [he] at hadd
      have hh : (fh : Int) = h := congrArg Prod.fst hadd
      apply handle_table_get_eq_none_of_join
      have htn : h.toNat = fh := by omega
      rw [htn]
      exact hi.free_empty fh (by rw [hfl]; exact List.mem_cons_self _ _)
    | nil =>
      obtain ⟨h1, -, -, -, -, -, -⟩ := add_fresh_spec t p hfl hi.len_eq hi.count_le
      have hh : (t.count : Int) = h := by rw [← h1, hadd]
      apply handle_table_get_eq_none_of_ge
      omega

/-- Witness for C6 at the initial table: the first add returns handle 0,
which indeed resolves to nothing beforehand. -/
theorem c6_add_never_hands_out_live_id_witness :
    handle_table_get initTable 0 = none :=
  c6_add_never_hands_out_live_id initTable Relation.ReflTransGen.refl (some 100) 0
    (handle_table_add initTable (some 100)).2 (by decide) (by decide)

/-- C9: calling `YGNodeGetChild_wrap` twice with no intervening structural
mutation returns the same handle and leaves the table as after the first
call: the first call either finds an existing handle aliasing the child
pointer or adds a fresh one, and the second call then finds exactly that
handle.  Stated for any table satisfying the structural invariant (which
every reachable state does); invalid parents or out-of-range indices
yield `-1` both times. -/
theorem c9_get_child_idempotent (t : HandleTable) (hi : TableInv t)
    (ph : Int) (parent : YGNode) (index : Int) :
    YGNodeGetChild_wrap (YGNodeGetChild_wrap t ph parent index).2 ph parent index =
      YGNodeGetChild_wrap t ph parent index := by
  cases hg : handle_table_get t ph with
  | none =>
    have he : YGNodeGetChild_wrap t ph parent index = (-1, t) := by
      simp only [YGNodeGetChild_wrap, hg]
    rw [he]
    show YGNodeGetChild_wrap t ph parent index = (-1, t)
    exact he
  | some q =>
    cases hchild : (if index < 0 then none else YGForest.get? parent.children index.toNat) with
    | none =>
      have he : YGNodeGetChild_wrap t ph parent index = (-1, t) := by
        simp only [YGNodeGetChild_wrap, hg, hchild]
      rw [he]
      show YGNodeGetChild_wrap t ph parent index = (-1, t)
      exact he
    | some child =>
      obtain ⟨h0, hlt, hslot⟩ := (handle_table_get_eq_some_iff t ph q).mp hg
      cases hfind : find_ptr child.ptr t.count t.items with
      | some i =>
        have he : YGNodeGetChild_wrap t ph parent index = ((i : Int), t) := by
          simp only [YGNodeGetChild_wrap, hg, hchild, hfind]
        rw [he]
        show YGNodeGetChild_wrap t ph parent index = ((i : Int), t)
        exact he
      | none =>
        have he : YGNodeGetChild_wrap t ph parent index =
            handle_table_add t (some child.ptr) := by
          simp only [YGNodeGetChild_wrap, hg, hchild, hfind]
        rw [he]
        cases hfl : t.free_list with
        | cons fh rest =>
          have hadd := add_pop_spec t child.ptr fh rest hfl
          have hfh_lt : fh < t.count :=
            hi.free_lt fh (by rw [hfl]; exact List.mem_cons_self _ _)
          have hfh_len : fh < t.items.length := by
            rw [hi.len_eq]
            have := hi.count_le
            omega
          have hfh_empty : (t.items.get? fh).join = none :=
            hi.free_empty fh (by rw [hfl]; exact List.mem_cons_self _ _)
          have hfh_ne : fh ≠ ph.toNat := by
            intro heq
            rw [heq, hslot] at hfh_empty
            exact absurd hfh_empty (by simp)
          have hget2 : handle_table_get
              { t with items := t.items.set fh (some child.ptr), free_list := rest } ph =
              some q := by
            refine (handle_table_get_eq_some_iff _ ph q).mpr ⟨h0, hlt, ?_⟩
            show (t.items.set fh (some child.ptr)).get? ph.toNat = some (some q)
            rw [List.get?_set_ne _ _ hfh_ne]
            exact hslot
          have hfind2 : find_ptr child.ptr t.count (t.items.set fh (some child.ptr)) =
              some fh :=
            find_ptr_set child.ptr t.count t.items fh hfind hfh_lt hfh_len
          have he2 : YGNodeGetChild_wrap
              { t with items := t.items.set fh (some child.ptr), free_list := rest }
              ph parent index =
              ((fh : Int),
                { t with items := t.items.set fh (some child.ptr), free_list := rest }) := by
            simp only [YGNodeGetChild_wrap, hget2, hchild]
            rw [hfind2]
          rw [hadd]
          show YGNodeGetChild_wrap
              { t with items := t.items.set fh (some child.ptr), free_list := rest }
              ph parent index =
              ((fh : Int),
                { t with items := t.items.set fh (some child.ptr), free_list := rest })
          exact he2
        | nil =>
          obtain ⟨h1, h2, h3, h4, h5, h6, h7⟩ :=
            add_fresh_spec t child.ptr hfl hi.len_eq hi.count_le
          have hpn : ph.toNat ≠ t.count := by omega
          have hget2 : handle_table_get (handle_table_add t (some child.ptr)).2 ph =
              some q := by
            refine (handle_table_get_eq_some_iff _ ph q).mpr ⟨h0, by rw [h2]; omega, ?_⟩
            apply Option.join_eq_some.mp
            rw [h7 ph.toNat hpn, hslot]
            rfl
          have hfind2 : find_ptr child.ptr (handle_table_add t (some child.ptr)).2.count
              (handle_table_add t (some child.ptr)).2.items = some t.count := by
            rw [h2]
            refine (find_ptr_eq_some_iff _ _ _ _).mpr ⟨by omega, h6, ?_⟩
            intro j hj hcon
            have hjoin : ((handle_table_add t (some child.ptr)).2.items.get? j).join =
                some child.ptr := by rw [hcon]; rfl
            rw [h7 j (by omega)] at hjoin
            exact (find_ptr_eq_none_iff child.ptr t.count t.items).mp hfind j (by omega)
              (Option.join_eq_some.mp hjoin)
          have he2 : YGNodeGetChild_wrap (handle_table_add t (some child.ptr)).2
              ph parent index =
              ((t.count : Int), (handle_table_add t (some child.ptr)).2) := by
            simp only [YGNodeGetChild_wrap, hget2, hchild, hfind2]
          rw [he2, ← h1]

/-- Witness for C9: looking up child 0 of the root handle 0 of the demo
tree twice yields the same handle and state. -/
theorem c9_get_child_idempotent_witness :
    YGNodeGetChild_wrap (YGNodeGetChild_wrap demoTable 0 demoTree 0).2 0 demoTree 0 =
      YGNodeGetChild_wrap demoTable 0 demoTree 0 :=
  c9_get_child_idempotent demoTable
    (reachable_inv demoTable
      (Relation.ReflTransGen.tail
        (Relation.ReflTransGen.tail
          (Relation.ReflTransGen.tail Relation.ReflTransGen.refl
            (Step.add initTable (some 1)))
          (Step.add _ (some 2)))
        (Step.add _ (some 3))))
    0 demoTree 0

/-- Removing never changes the capacity. -/
theorem remove_capacity (t : HandleTable) (h : Int) :
    (handle_table_remove t h).capacity = t.capacity := by
  unfold handle_table_remove
  split
  · rfl
  split
  · dsimp only
    split
    · split <;> rfl
    · split <;> rfl
  · rfl

/-- C5 (amended): the compaction policy evaluated by `YGNodeFree_wrap`
after removing a valid handle: when the trigger (more than 32 free ids and
free ids exceeding half of capacity) does not hold, capacity is unchanged;
when it holds and the high-water mark is `-1`, all storage is released and
capacity becomes 0; when it holds with a non-negative mark, capacity
shrinks to `high_water_mark + 1` floored at 16 only if that target is
below a quarter of the current capacity, and otherwise — this is the
condition the original claim omits — capacity is unchanged. -/
theorem c5_amended_compaction_policy (t : HandleTable) (h : Int)
    (hv : (handle_table_get t h).isSome = true) :
    ((¬ ((handle_table_remove t h).free_list.length > 32 ∧
        (handle_table_remove t h).free_list.length >
          (handle_table_remove t h).capacity / 2)) →
      (YGNodeFree_wrap t h).capacity = t.capacity) ∧
    (((handle_table_remove t h).free_list.length > 32 ∧
        (handle_table_remove t h).free_list.length >
          (handle_table_remove t h).capacity / 2) →
      ((handle_table_remove t h).high_water_mark < 0 →
        (YGNodeFree_wrap t h).capacity = 0 ∧ (YGNodeFree_wrap t h).items = []) ∧
      (0 ≤ (handle_table_remove t h).high_water_mark →
        (max ((handle_table_remove t h).high_water_mark.toNat + 1) 16 <
            (handle_table_remove t h).capacity / 4 →
          (YGNodeFree_wrap t h).capacity =
            max ((handle_table_remove t h).high_water_mark.toNat + 1) 16) ∧
        (¬ (max ((handle_table_remove t h).high_water_mark.toNat + 1) 16 <
            (handle_table_remove t h).capacity / 4) →
          (YGNodeFree_wrap t h).capacity = t.capacity))) := by
  obtain ⟨v, hv2⟩ := Option.isSome_iff_exists.mp hv
  have hw : YGNodeFree_wrap t h =
      (if (handle_table_remove t h).free_list.length > 32 ∧
          (handle_table_remove t h).free_list.length >
            (handle_table_remove t h).capacity / 2 then
        handle_table_compact (handle_table_remove t h)
      else handle_table_remove t h) := by
    simp only [YGNodeFree_wrap, hv2]
  rw [hw]
  constructor
  · intro hnt
    rw [if_neg hnt]
    exact remove_capacity t h
  · intro ht
    rw [if_pos ht]
    constructor
    · intro hneg
      unfold handle_table_compact
      rw [if_pos hneg]
      exact ⟨rfl, rfl⟩
    · intro hnneg
      have hcond : ¬ ((handle_table_remove t h).high_water_mark < 0) := by omega
      unfold handle_table_compact
      rw [if_neg hcond]
      dsimp only
      have hmax : (if (handle_table_remove t h).high_water_mark.toNat + 1 < 16 then 16
          else (handle_table_remove t h).high_water_mark.toNat + 1) =
          max ((handle_table_remove t h).high_water_mark.toNat + 1) 16 := by
        split <;> omega
      rw [hmax]
      constructor
      · intro hlt
        rw [if_pos hlt]
      · intro hn
        rw [if_neg hn]
        exact remove_capacity t h

/-- Witness for the amended C5: freeing handle 0 of the two-entry table
leaves one free id, the trigger does not hold, and capacity stays 16. -/
theorem c5_amended_compaction_policy_witness :
    (YGNodeFree_wrap staleTrace2 0).capacity = staleTrace2.capacity :=
  (c5_amended_compaction_policy staleTrace2 0 (by decide)).1 (by decide)

/-- C7 (amended): an operation resolves a handle only against its own
namespace's table.  When that table has no live entry at the id, the
operation is a no-op (here: the foreign config state is returned
unchanged); and in no case is the object the handle names in the *other*
namespace accessed — under the pointer-disjointness of the two tables, the
foreign state of the node object the handle names is untouched.  The
original claim's stronger reading — that a cross-namespace handle always
resolves to absent — is refuted separately. -/
theorem c7_amended_namespace_isolation (s : Tables) (fc : Nat → Bool) (h : Int) (e : Int)
    (hdisj : ∀ p, handle_table_get s.node_table h = some p →
      handle_table_get s.config_table h ≠ some p) :
    (handle_table_get s.config_table h = none →
      YGConfigSetUseWebDefaults_wrap s fc h e = fc) ∧
    (∀ p, handle_table_get s.node_table h = some p →
      YGConfigSetUseWebDefaults_wrap s fc h e p = fc p) := by
  cases hc : handle_table_get s.config_table h with
  | none =>
    constructor
    · intro _
      simp only [YGConfigSetUseWebDefaults_wrap, hc]
    · intro p _
      simp only [YGConfigSetUseWebDefaults_wrap, hc]
  | some c =>
    constructor
    · intro hnone
      exact absurd hnone (by simp)
    · intro p hp
      have hne : p ≠ c := by
        intro he
        subst he
        exact hdisj p hp hc
      simp only [YGConfigSetUseWebDefaults_wrap, hc]
      rw [if_neg hne]

/-- Witness for the amended C7: with both namespaces holding a live handle
0 (node address 600, config address 500), the config mutation through
handle 0 leaves the node object's state untouched. -/
theorem c7_amended_namespace_isolation_witness :
    YGConfigSetUseWebDefaults_wrap nsTrace2 (fun _ => false) 0 1 600 = false :=
  (c7_amended_namespace_isolation nsTrace2 (fun _ => false) 0 1
    (by
      intro p hp
      have h600 : handle_table_get nsTrace2.node_table 0 = some 600 := by decide
      rw [h600] at hp
      injection hp with hp
      subst hp
      decide)).2 600 (by decide)
